import Mathlib

/-!
# Verification of the LLM-File-Storage-Organizer notebook

Shallow embedding of the notebook's own logic (`src/main.ipynb`): the prompt
formatter, the tokenization adapter, the model resolver, the model loading
branch, the LoRA adapter setup, and the answer-extraction slicing in
`runExample`.  External-library behaviour (the HuggingFace tokenizer call and
the PEFT injection / Trainer step) is modelled abstractly where the claims
need it.
-/

/-- `model_name = "deepseek-ai/deepseek-coder-1.3b-base"` (notebook cell 3). -/
def model_name : String := "deepseek-ai/deepseek-coder-1.3b-base"

/-- `mount_point = "Seagate"` (notebook cell 4). -/
def mount_point : String := "Seagate"

/-- One row of `dataset.csv`: the columns read by `format` are
`'English understanding'` and `'Shell script'`. -/
structure DataRow where
  englishUnderstanding : String
  shellScript : String

/-- The prompt formatter (notebook cell 10):
`f"### Instruction:\n{example['English understanding']}\n\n### Output:\n{example['Shell script']}"`.
A Python f-string with plain field interpolations is string concatenation. -/
def formatRow (row : DataRow) : String :=
  "### Instruction:\n" ++ row.englishUnderstanding ++ "\n\n### Output:\n" ++ row.shellScript

/-- `max_length=512` from the tokenizer call in notebook cell 10. -/
def maxLength : Nat := 512

/-- The mutable tokenizer attributes that the notebook touches:
`tokenizer.pad_token` (unset until assigned) and `tokenizer.eos_token`. -/
structure TokenizerState where
  padToken : Option Nat
  eosToken : Nat
deriving DecidableEq, Repr

/-- The external HuggingFace call
`tokenizer(text, truncation=True, padding="max_length", max_length=512)`,
modelled over an abstract raw encoder `encode`: the raw id sequence is
truncated to `maxLength` and right-padded with the pad token id up to
`maxLength`. -/
def hfMaxLengthCall (encode : String → List Nat) (padId : Nat) (text : String) : List Nat :=
  let ids := encode text
  ids.take maxLength ++ List.replicate (maxLength - ids.length) padId

/-- The notebook's `tokenize` (cell 10): it first assigns
`tokenizer.pad_token = tokenizer.eos_token` (a mutation of tokenizer state
performed on every call), then tokenizes `format(example)` with truncation and
max-length padding.  Returns the post-call tokenizer state and the ids. -/
def tokenize (encode : String → List Nat) (st : TokenizerState) (row : DataRow) :
    TokenizerState × List Nat :=
  let st2 : TokenizerState := { st with padToken := some st.eosToken }
  (st2, hfMaxLengthCall encode (st2.padToken.getD st2.eosToken) (formatRow row))

/-- `model_name.replace('/', '_')`: Python `str.replace` with one-character
pattern and replacement substitutes every occurrence, i.e. maps characters. -/
def replaceSlashUnderscore (s : String) : String :=
  String.mk (s.data.map (fun c => if c = '/' then '_' else c))

/-- The model resolver cell (cell 4), as a function of whether
`os.path.ismount(mount_point)` holds and of the process environment:
mounted → `model_dir = f"/Volumes/{mount_point}/VSWorkspace/{model_name.replace('/', '_')}"`
and `os.environ["HF_HOME"] = model_dir`; not mounted → `model_dir = "model"`,
environment untouched.  Returns `(model_dir, new environment)`. -/
def modelResolver (mounted : Bool) (env : String → Option String) :
    String × (String → Option String) :=
  if mounted then
    let dir := "/Volumes/" ++ mount_point ++ "/VSWorkspace/" ++ replaceSlashUnderscore model_name
    (dir, fun k => if k = "HF_HOME" then some dir else env k)
  else
    ("model", env)

/-- Character-list view of Python strings, used to model the string slicing in
`runExample` (notebook cell 15). -/
abbrev Chars := List Char

/-- Index of the leftmost occurrence of `sep` as a contiguous substring of `s`
(Python `str.find` on character lists), `none` when `sep` does not occur. -/
def findSub (sep : Chars) : Chars → Option Nat
  | [] => if sep.isPrefixOf ([] : Chars) then some 0 else none
  | c :: rest =>
    if sep.isPrefixOf (c :: rest) then some 0
    else (findSub sep rest).map (fun n => n + 1)

/-- Python `str.split(sep)` for non-empty `sep`: cut at the leftmost occurrence
and continue after it (non-overlapping, left to right).  The fuel argument
makes the recursion structural; `s.length + 1` fuel always suffices because
every recursive step consumes at least `sep.length ≥ 1` characters. -/
def splitOnFuel (sep : Chars) : Nat → Chars → List Chars
  | 0, s => [s]
  | fuel + 1, s =>
    match findSub sep s with
    | none => [s]
    | some k => s.take k :: splitOnFuel sep fuel (s.drop (k + sep.length))

/-- Python `s.split(sep)` (for the non-empty separators the notebook uses). -/
def pySplit (sep s : Chars) : List Chars := splitOnFuel sep (s.length + 1) s

/-- The text before the leftmost occurrence of `sep`, the whole string when
`sep` does not occur: `s.split(sep)[0]`, described directly by indices. -/
def cutBefore (sep s : Chars) : Chars :=
  match findSub sep s with
  | none => s
  | some k => s.take k

/-- Python `str.strip()`: remove leading and trailing whitespace. -/
def pyStrip (s : Chars) : Chars :=
  ((s.dropWhile Char.isWhitespace).reverse.dropWhile Char.isWhitespace).reverse

/-- `sep` occurs as a contiguous substring of `s`. -/
def occursIn (sep s : Chars) : Bool := (findSub sep s).isSome

/-- The literal marker `"### Output:"` used by `runExample`. -/
def outputMarker : Chars := "### Output:".data

/-- The literal marker `"###"` used by `runExample`. -/
def hashMarker : Chars := "###".data

/-- The answer-extraction slicing of `runExample` (notebook cell 15):
`output_text.split("### Output:")[1].strip().split("###")[0].strip()`.
The `[1]` index is fallible in Python (`IndexError` when the split has fewer
than two segments), so the embedding returns an `Option`; the `[0]` index
never fails because a split is never empty (`getD` is a formality). -/
def extractAnswer? (t : Chars) : Option Chars :=
  match (pySplit outputMarker t).get? 1 with
  | none => none
  | some seg => some (pyStrip (((pySplit hashMarker (pyStrip seg)).get? 0).getD []))

/-- `runExample`'s extraction applied to the decoded generation text. -/
def runExampleExtract (decoded : String) : Option String :=
  (extractAnswer? decoded.data).map String.mk

/-- Follows the spec's words for claim C3 (not the code): extraction returns
"the text after the first `### Output:`", stripped of leading/trailing
whitespace, cut before the first subsequent `###`, stripped again; undefined
(modelled as `none`) when the marker is absent. -/
def extractSpecC3 (t : Chars) : Option Chars :=
  match findSub outputMarker t with
  | none => none
  | some i =>
    some (pyStrip (cutBefore hashMarker (pyStrip (t.drop (i + outputMarker.length)))))

/-- Claim C1: the prompt formatter returns exactly
`"### Instruction:\n" ++ I ++ "\n\n### Output:\n" ++ O` — an exact byte match
(the character data is the concatenation of the template bytes with the raw
field bytes, so nothing is escaped), with no truncation (the length is the sum
of the field lengths plus the 31 template characters).  Determinism is
definitional: `formatRow` is a pure function. -/
theorem C1_format_exact (I O : String) :
    formatRow ⟨I, O⟩ = "### Instruction:\n" ++ I ++ "\n\n### Output:\n" ++ O ∧
    (formatRow ⟨I, O⟩).data =
      "### Instruction:\n".data ++ I.data ++ "\n\n### Output:\n".data ++ O.data ∧
    (formatRow ⟨I, O⟩).length = I.length + O.length + 31 := by
  refine ⟨rfl, by simp [formatRow, String.data_append], ?_⟩
  simp [formatRow, String.length_append]
  have h1 : "### Instruction:\n".length = 17 := by decide
  have h2 : "\n\n### Output:\n".length = 14 := by decide
  omega

/-- Claim C2: every tokenization call returns an id sequence of length exactly
`maxLength = 512`, equal to the raw encoding truncated to 512 ids and
right-padded with the end-of-sequence token id (`replicate` is empty when the
raw encoding is long, and `take` is the identity when it is short). -/
theorem C2_tokenize_fixed_length (encode : String → List Nat) (st : TokenizerState)
    (row : DataRow) :
    ((tokenize encode st row).2).length = maxLength ∧
    (tokenize encode st row).2 =
      (encode (formatRow row)).take maxLength ++
        List.replicate (maxLength - (encode (formatRow row)).length) st.eosToken := by
  constructor
  · simp only [tokenize, hfMaxLengthCall, List.length_append, List.length_take,
      List.length_replicate]
    omega
  · simp [tokenize, hfMaxLengthCall]

/-- Claim C5: in the mounted branch the cache root is
`"/Volumes/Seagate/VSWorkspace/" ++ model_name` with every `'/'` replaced by
`'_'`, which evaluates to the concrete path below; in the unmounted branch the
cache root is the literal string `"model"`. -/
theorem C5_model_resolver_dir (env : String → Option String) :
    (modelResolver true env).1 =
      "/Volumes/" ++ mount_point ++ "/VSWorkspace/" ++ replaceSlashUnderscore model_name ∧
    (modelResolver true env).1 = "/Volumes/Seagate/VSWorkspace/deepseek-ai_deepseek-coder-1.3b-base" ∧
    (modelResolver false env).1 = "model" := by
  refine ⟨rfl, ?_, rfl⟩
  show "/Volumes/" ++ mount_point ++ "/VSWorkspace/" ++ replaceSlashUnderscore model_name =
    "/Volumes/Seagate/VSWorkspace/deepseek-ai_deepseek-coder-1.3b-base"
  decide

/-- Claim C7 counterexample: the pad-token assignment is performed inside every
`tokenize` call, not once before the first call.  Starting from a tokenizer
state whose pad token is unset (so no initialization preceded the call), the
call itself mutates the state, and starting from a state whose pad token is a
different id, the call overwrites it — a per-call effect, contradicting the
claim that the assignment happens once, before the first tokenization call. -/
theorem C7_pad_token_counterexample :
    (tokenize (fun _ => []) ⟨none, 2⟩ ⟨"a", "b"⟩).1 ≠ (⟨none, 2⟩ : TokenizerState) ∧
    (tokenize (fun _ => []) ⟨none, 2⟩ ⟨"a", "b"⟩).1.padToken = some 2 ∧
    (tokenize (fun _ => []) ⟨some 7, 2⟩ ⟨"a", "b"⟩).1.padToken = some 2 := by
  refine ⟨?_, rfl, rfl⟩
  intro h
  have : (some 2 : Option Nat) = none := congrArg TokenizerState.padToken h
  exact Option.noConfusion this

/-- Claim C7 amended: the pad token id is assigned to the end-of-sequence token
id at the start of every `tokenize` call (an idempotent per-call effect), so
every tokenization call observes pad token = end-of-sequence token and pads
with the end-of-sequence id; the end-of-sequence token itself is unchanged. -/
theorem C7_pad_token_amended (encode : String → List Nat) (st : TokenizerState) (row : DataRow) :
    ((tokenize encode st row).1).padToken = some st.eosToken ∧
    ((tokenize encode st row).1).eosToken = st.eosToken ∧
    (tokenize encode st row).2 = hfMaxLengthCall encode st.eosToken (formatRow row) := by
  refine ⟨rfl, rfl, rfl⟩

/-- Claim C10: the environment is written only in the mounted branch.  When the
mount point is absent the resolver returns the environment unchanged (so no
cache-location variable is set even though the cache root becomes `"model"`);
when mounted, `HF_HOME` is set to the resolved directory and every other
variable is untouched. -/
theorem C10_hf_home_only_mounted (env : String → Option String) :
    (modelResolver false env).2 = env ∧
    (modelResolver true env).2 "HF_HOME" = some (modelResolver true env).1 ∧
    (∀ k, k ≠ "HF_HOME" → (modelResolver true env).2 k = env k) := by
  refine ⟨rfl, rfl, ?_⟩
  intro k hk
  simp only [modelResolver, if_true]
  exact if_neg hk

/-- Witness for C10 at a concrete environment and key. -/
theorem C10_hf_home_only_mounted_witness :
    (modelResolver true (fun _ => none)).2 "PATH" = none :=
  (C10_hf_home_only_mounted (fun _ => none)).2.2 "PATH" (by decide)

/-- `List.isPrefixOf` agrees with the prefix relation on character lists. -/
theorem charsIsPre_iff {l₁ l₂ : Chars} : l₁.isPrefixOf l₂ = true ↔ l₁ <+: l₂ :=
  List.isPrefixOf_iff_prefix

/-- `take` is a prefix, specialised to character lists. -/
theorem charsTakePre (n : Nat) (l : Chars) : l.take n <+: l :=
  List.take_prefix n l

/-- A found occurrence fits inside the string. -/
theorem findSub_some_bound (sep : Chars) :
    ∀ s k, findSub sep s = some k → k + sep.length ≤ s.length := by
  intro s
  induction s with
  | nil =>
    intro k h
    simp only [findSub] at h
    by_cases hp : sep.isPrefixOf ([] : Chars)
    · rw [if_pos hp] at h
      obtain rfl : 0 = k := Option.some.inj h
      have hnil : sep = [] := List.prefix_nil.mp (charsIsPre_iff.mp hp)
      simp [hnil]
    · rw [if_neg hp] at h
      exact absurd h (by simp)
  | cons c rest ih =>
    intro k h
    by_cases hp : sep.isPrefixOf (c :: rest)
    · simp only [findSub, if_pos hp] at h
      obtain rfl : 0 = k := Option.some.inj h
      simpa using List.IsPrefix.length_le (charsIsPre_iff.mp hp)
    · simp only [findSub, if_neg hp, Option.map_eq_some'] at h
      obtain ⟨k', hk', rfl⟩ := h
      have := ih k' hk'
      simp only [List.length_cons]
      omega

/-- The found index is an occurrence. -/
theorem findSub_pos_at (sep : Chars) :
    ∀ s k, findSub sep s = some k → sep.isPrefixOf (s.drop k) = true := by
  intro s
  induction s with
  | nil =>
    intro k h
    simp only [findSub] at h
    by_cases hp : sep.isPrefixOf ([] : Chars)
    · rw [if_pos hp] at h
      obtain rfl : 0 = k := Option.some.inj h
      simpa using hp
    · rw [if_neg hp] at h
      exact absurd h (by simp)
  | cons c rest ih =>
    intro k h
    by_cases hp : sep.isPrefixOf (c :: rest)
    · simp only [findSub, if_pos hp] at h
      obtain rfl : 0 = k := Option.some.inj h
      simpa using hp
    · simp only [findSub, if_neg hp, Option.map_eq_some'] at h
      obtain ⟨k', hk', rfl⟩ := h
      rw [List.drop_succ_cons]
      exact ih k' hk'

/-- The found index is the leftmost occurrence. -/
theorem findSub_min (sep : Chars) :
    ∀ s k, findSub sep s = some k → ∀ j, j < k → sep.isPrefixOf (s.drop j) = false := by
  intro s
  induction s with
  | nil =>
    intro k h j hj
    simp only [findSub] at h
    by_cases hp : sep.isPrefixOf ([] : Chars)
    · rw [if_pos hp] at h
      obtain rfl : 0 = k := Option.some.inj h
      exact absurd hj (Nat.not_lt_zero j)
    · rw [if_neg hp] at h
      exact absurd h (by simp)
  | cons c rest ih =>
    intro k h j hj
    by_cases hp : sep.isPrefixOf (c :: rest)
    · simp only [findSub, if_pos hp] at h
      obtain rfl : 0 = k := Option.some.inj h
      exact absurd hj (Nat.not_lt_zero j)
    · simp only [findSub, if_neg hp, Option.map_eq_some'] at h
      obtain ⟨k', hk', rfl⟩ := h
      cases j with
      | zero =>
        simp only [List.drop_zero]
        cases hb : sep.isPrefixOf (c :: rest) with
        | false => rfl
        | true => exact absurd hb hp
      | succ j =>
        rw [List.drop_succ_cons]
        exact ih k' hk' j (by omega)

/-- An occurrence anywhere makes `occursIn` true. -/
theorem occursIn_of_drop (sep : Chars) :
    ∀ s j, sep.isPrefixOf (s.drop j) = true → occursIn sep s = true := by
  intro s
  induction s with
  | nil =>
    intro j h
    simp only [List.drop_nil] at h
    simp [occursIn, findSub, h]
  | cons c rest ih =>
    intro j h
    cases j with
    | zero =>
      simp only [List.drop_zero] at h
      simp [occursIn, findSub, h]
    | succ j =>
      rw [List.drop_succ_cons] at h
      have hrest : occursIn sep rest = true := ih j h
      simp only [occursIn] at hrest
      obtain ⟨k, hk⟩ := Option.isSome_iff_exists.mp hrest
      by_cases hp : sep.isPrefixOf (c :: rest)
      · simp [occursIn, findSub, hp]
      · simp [occursIn, findSub, hp, hk]

/-- `occursIn` is exactly "some suffix starts with `sep`". -/
theorem occursIn_iff_exists (sep s : Chars) :
    occursIn sep s = true ↔ ∃ j, sep.isPrefixOf (s.drop j) = true := by
  constructor
  · intro h
    simp only [occursIn] at h
    obtain ⟨k, hk⟩ := Option.isSome_iff_exists.mp h
    exact ⟨k, findSub_pos_at sep s k hk⟩
  · rintro ⟨j, hj⟩
    exact occursIn_of_drop sep s j hj

/-- Occurrence is monotone along the infix order. -/
theorem occursIn_mono_within (sep u v : Chars) (huv : u <:+: v)
    (h : occursIn sep u = true) : occursIn sep v = true := by
  obtain ⟨j, hj⟩ := (occursIn_iff_exists sep u).mp h
  have h1 : sep <+: u.drop j := charsIsPre_iff.mp hj
  have h2 : sep <:+: u :=
    List.infix_iff_prefix_suffix.mpr ⟨u.drop j, h1, List.drop_suffix j u⟩
  have h3 : sep <:+: v := h2.trans huv
  obtain ⟨a, b, hv⟩ := h3
  apply occursIn_of_drop sep v a.length
  apply charsIsPre_iff.mpr
  rw [← hv, List.append_assoc, List.drop_left]
  exact List.prefix_append sep b

/-- The segment before the leftmost occurrence of `sep` contains no
occurrence of `sep` at all. -/
theorem cutBefore_not_contains (sep s : Chars) (hsep : sep ≠ []) :
    occursIn sep (cutBefore sep s) = false := by
  cases hf : findSub sep s with
  | none =>
    simp only [cutBefore, hf]
    simp [occursIn, hf]
  | some k =>
    simp only [cutBefore, hf]
    cases hocc : occursIn sep (s.take k) with
    | false => rfl
    | true =>
      exfalso
      obtain ⟨j, hj⟩ := (occursIn_iff_exists sep _).mp hocc
      have hpre : sep <+: (s.drop j).take (k - j) := by
        rw [← List.drop_take]
        exact charsIsPre_iff.mp hj
      have hj_lt : j < k := by
        by_contra hge
        have hz : k - j = 0 := by omega
        rw [hz, List.take_zero] at hpre
        exact hsep (List.prefix_nil.mp hpre)
      have hpre2 : sep <+: s.drop j := hpre.trans (charsTakePre _ _)
      have hmin := findSub_min sep s k hf j hj_lt
      rw [charsIsPre_iff.mpr hpre2] at hmin
      exact Bool.noConfusion hmin

/-- The head surviving a `dropWhile` fails the predicate. -/
theorem dropWhile_head_not (p : Char → Bool) :
    ∀ (l : Chars) (c : Char), (l.dropWhile p).head? = some c → p c = false := by
  intro l
  induction l with
  | nil => intro c h; simp [List.dropWhile] at h
  | cons x xs ih =>
    intro c h
    cases hx : p x with
    | true =>
      simp only [List.dropWhile, hx] at h
      exact ih c h
    | false =>
      simp only [List.dropWhile, hx, List.head?] at h
      obtain rfl : x = c := Option.some.inj h
      exact hx

/-- A stripped string is a prefix of the string with leading whitespace
removed. -/
theorem pyStrip_pre_dropWhile (s : Chars) :
    pyStrip s <+: s.dropWhile Char.isWhitespace := by
  unfold pyStrip
  apply List.reverse_suffix.mp
  rw [List.reverse_reverse]
  exact List.dropWhile_suffix _

/-- A stripped string is an infix of the original. -/
theorem pyStrip_within (s : Chars) : pyStrip s <:+: s :=
  List.infix_iff_prefix_suffix.mpr
    ⟨s.dropWhile Char.isWhitespace, pyStrip_pre_dropWhile s, List.dropWhile_suffix _⟩

/-- Heads agree along a non-empty prefix. -/
theorem head_eq_of_pre {l₁ l₂ : Chars} (h : l₁ <+: l₂) {c : Char}
    (hc : l₁.head? = some c) : l₂.head? = some c := by
  obtain ⟨t, rfl⟩ := h
  cases l₁ with
  | nil => simp at hc
  | cons x xs => simpa using hc

/-- A stripped string has no leading whitespace. -/
theorem pyStrip_head_not_ws (s : Chars) {c : Char} (h : (pyStrip s).head? = some c) :
    c.isWhitespace = false :=
  dropWhile_head_not Char.isWhitespace s c (head_eq_of_pre (pyStrip_pre_dropWhile s) h)

/-- A stripped string has no trailing whitespace. -/
theorem pyStrip_getLast_not_ws (s : Chars) {c : Char}
    (h : (pyStrip s).getLast? = some c) : c.isWhitespace = false := by
  unfold pyStrip at h
  rw [List.getLast?_reverse] at h
  exact dropWhile_head_not Char.isWhitespace _ c h

/-- Unfolding a split step when the separator is absent. -/
theorem splitOnFuel_succ_none (sep s : Chars) (f : Nat) (h : findSub sep s = none) :
    splitOnFuel sep (f + 1) s = [s] := by
  simp [splitOnFuel, h]

/-- Unfolding a split step at the leftmost occurrence. -/
theorem splitOnFuel_succ_some (sep s : Chars) (f k : Nat) (h : findSub sep s = some k) :
    splitOnFuel sep (f + 1) s = s.take k :: splitOnFuel sep f (s.drop (k + sep.length)) := by
  simp [splitOnFuel, h]

/-- The first segment of a split is the text before the leftmost occurrence. -/
theorem splitOnFuel_get_zero (sep s : Chars) (f : Nat) :
    (splitOnFuel sep (f + 1) s).get? 0 = some (cutBefore sep s) := by
  cases h : findSub sep s with
  | none => rw [splitOnFuel_succ_none sep s f h]; simp [cutBefore, h]
  | some k => rw [splitOnFuel_succ_some sep s f k h]; simp [cutBefore, h]

/-- Claim C3 counterexample.  First flaw: the claim's "in particular" instance
is false — the decoded text below contains the substring
`"### Output:\nMOVE_FILES\n###"`, yet extraction returns `"A"` (the answer
after the FIRST marker), not `"MOVE_FILES"`.  Second flaw: the general
description "the text after the first `### Output:`" is not what the code
computes — Python `split`'s second segment stops at the next marker occurrence,
and on the text `"### Output:x #### Output: ans ###"` (marker, answer,
closing `###`) the code yields `"x #"` while the claim's description yields
`"x"`. -/
theorem C3_extraction_counterexample :
    (occursIn ("### Output:\nMOVE_FILES\n###".data)
        ("### Output:\nA\n### Output:\nMOVE_FILES\n###".data) = true ∧
      extractAnswer? ("### Output:\nA\n### Output:\nMOVE_FILES\n###".data) = some ("A".data) ∧
      ("A".data ≠ "MOVE_FILES".data)) ∧
    (extractAnswer? (outputMarker ++ "x #### Output: ans ".data ++ hashMarker) =
        some ("x #".data) ∧
      extractSpecC3 (outputMarker ++ "x #### Output: ans ".data ++ hashMarker) =
        some ("x".data) ∧
      ("x #".data ≠ "x".data)) := by
  decide

/-- Claim C3 amended: for every decoded text in which `### Output:` occurs,
extraction returns the text BETWEEN the first `### Output:` and the next
occurrence of `### Output:` (or the end of text), stripped of leading/trailing
whitespace, cut before the first subsequent `###` within that segment,
stripped again; in particular, on the decoded text whose first `### Output:`
is followed by `"\nMOVE_FILES\n###"` it returns exactly `"MOVE_FILES"`. -/
theorem C3_extraction_amended :
    (∀ t i, findSub outputMarker t = some i →
      extractAnswer? t = some (pyStrip (cutBefore hashMarker
        (pyStrip (cutBefore outputMarker (t.drop (i + outputMarker.length))))))) ∧
    extractAnswer?
        ("### Instruction:\nMove all files from A to B\n\n### Output:\nMOVE_FILES\n###".data) =
      some ("MOVE_FILES".data) := by
  constructor
  · intro t i hi
    have hb := findSub_some_bound outputMarker t i hi
    have hm : outputMarker.length = 11 := by decide
    obtain ⟨f, hf⟩ : ∃ f, t.length = f + 1 := ⟨t.length - 1, by omega⟩
    have hget1 : (pySplit outputMarker t).get? 1 =
        some (cutBefore outputMarker (t.drop (i + outputMarker.length))) := by
      show (splitOnFuel outputMarker (t.length + 1) t).get? 1 = _
      rw [splitOnFuel_succ_some outputMarker t t.length i hi, List.get?_cons_succ, hf]
      exact splitOnFuel_get_zero outputMarker (t.drop (i + outputMarker.length)) f
    have hget0 : (pySplit hashMarker
          (pyStrip (cutBefore outputMarker (t.drop (i + outputMarker.length))))).get? 0 =
        some (cutBefore hashMarker
          (pyStrip (cutBefore outputMarker (t.drop (i + outputMarker.length))))) :=
      splitOnFuel_get_zero hashMarker
        (pyStrip (cutBefore outputMarker (t.drop (i + outputMarker.length)))) _
    simp only [extractAnswer?, hget1, hget0, Option.getD_some]
  · decide

/-- Witness for the amended claim C3 at a concrete decoded text. -/
theorem C3_extraction_amended_witness :
    extractAnswer? ("### Output:\n cp a b \n### done".data) =
      some (pyStrip (cutBefore hashMarker (pyStrip (cutBefore outputMarker
        (("### Output:\n cp a b \n### done".data).drop (0 + outputMarker.length)))))) :=
  C3_extraction_amended.1 ("### Output:\n cp a b \n### done".data) 0 (by decide)

/-- Claim C4: when the decoded text does not contain `### Output:`, the split
returns the single-segment list `[t]` (fewer than two segments), so the `[1]`
index is out of range and extraction is a defined failure (`none` in the
embedding, an `IndexError` in Python), never an arbitrary answer. -/
theorem C4_missing_marker_fails (t : Chars) (h : occursIn outputMarker t = false) :
    pySplit outputMarker t = [t] ∧ (pySplit outputMarker t).length < 2 ∧
    extractAnswer? t = none := by
  have hf : findSub outputMarker t = none := by
    cases hfs : findSub outputMarker t with
    | none => rfl
    | some k => rw [occursIn, hfs] at h; exact absurd h (by simp)
  have hsplit : pySplit outputMarker t = [t] :=
    splitOnFuel_succ_none outputMarker t t.length hf
  refine ⟨hsplit, by rw [hsplit]; exact Nat.one_lt_two, ?_⟩
  simp [extractAnswer?, hsplit]

/-- Witness for C4 at a concrete marker-free decoded text. -/
theorem C4_missing_marker_fails_witness :
    extractAnswer? ("hello".data) = none :=
  (C4_missing_marker_fails ("hello".data) (by decide)).2.2

/-- Claim C9: whenever extraction succeeds, the extracted string contains no
occurrence of `###` and has neither leading nor trailing whitespace (it may be
empty, e.g. when `###` immediately follows the marker). -/
theorem C9_extracted_clean :
    ∀ t r, extractAnswer? t = some r →
      occursIn hashMarker r = false ∧
      (∀ c, r.head? = some c → c.isWhitespace = false) ∧
      (∀ c, r.getLast? = some c → c.isWhitespace = false) := by
  intro t r h
  cases hseg : (pySplit outputMarker t).get? 1 with
  | none =>
    simp only [extractAnswer?, hseg] at h
    exact absurd h (by simp)
  | some seg =>
    have hget0 : (pySplit hashMarker (pyStrip seg)).get? 0 =
        some (cutBefore hashMarker (pyStrip seg)) :=
      splitOnFuel_get_zero hashMarker (pyStrip seg) _
    simp only [extractAnswer?, hseg, hget0, Option.getD_some] at h
    obtain rfl : pyStrip (cutBefore hashMarker (pyStrip seg)) = r := Option.some.inj h
    refine ⟨?_, fun c hc => pyStrip_head_not_ws _ hc,
      fun c hc => pyStrip_getLast_not_ws _ hc⟩
    cases hocc : occursIn hashMarker (pyStrip (cutBefore hashMarker (pyStrip seg))) with
    | false => rfl
    | true =>
      exfalso
      have h1 : occursIn hashMarker (cutBefore hashMarker (pyStrip seg)) = true :=
        occursIn_mono_within hashMarker _ _ (pyStrip_within _) hocc
      have h2 := cutBefore_not_contains hashMarker (pyStrip seg) (by decide)
      rw [h1] at h2
      exact Bool.noConfusion h2

/-- Witness for C9 at a concrete decoded text whose extraction succeeds. -/
theorem C9_extracted_clean_witness :
    occursIn hashMarker ("ls -la".data) = false ∧
    (∀ c, ("ls -la".data).head? = some c → c.isWhitespace = false) ∧
    (∀ c, ("ls -la".data).getLast? = some c → c.isWhitespace = false) :=
  C9_extracted_clean ("### Output:\n ls -la \n### extra".data) ("ls -la".data) (by decide)

/-- The model loading cell (cell 5):
`if os.path.exists(model_dir): tokenizer/model = from_pretrained(model_dir)`
`else: tokenizer/model = from_pretrained(model_name, ...)`.
The external `from_pretrained` calls are abstract fallible loaders; the
notebook's own logic is the single existence branch and the sequencing
(tokenizer first, then model, each failure propagating). -/
def loadModelAndTokenizer {E Tok Mdl : Type} (dirExists : Bool)
    (localTok : Except E Tok) (localMdl : Except E Mdl)
    (remoteTok : Except E Tok) (remoteMdl : Except E Mdl) : Except E (Tok × Mdl) :=
  if dirExists then do
    let t ← localTok
    let m ← localMdl
    pure (t, m)
  else do
    let t ← remoteTok
    let m ← remoteMdl
    pure (t, m)

/-- Claim C6: artifacts are loaded from the cache directory iff it exists —
when it exists the result never consults the remote loaders, and when it does
not, never the local ones; on success both artifacts come from the selected
source; and a remote fetch failure (of either artifact) propagates unrecovered
as that same error. -/
theorem C6_load_branch {E Tok Mdl : Type}
    (lT lT2 : Except E Tok) (lM lM2 : Except E Mdl)
    (rT rT2 : Except E Tok) (rM rM2 : Except E Mdl) :
    (loadModelAndTokenizer true lT lM rT rM = loadModelAndTokenizer true lT lM rT2 rM2) ∧
    (loadModelAndTokenizer false lT lM rT rM = loadModelAndTokenizer false lT2 lM2 rT rM) ∧
    (∀ t m, lT = Except.ok t → lM = Except.ok m →
      loadModelAndTokenizer true lT lM rT rM = Except.ok (t, m)) ∧
    (∀ t m, rT = Except.ok t → rM = Except.ok m →
      loadModelAndTokenizer false lT lM rT rM = Except.ok (t, m)) ∧
    (∀ e, rT = Except.error e → loadModelAndTokenizer false lT lM rT rM = Except.error e) ∧
    (∀ t e, rT = Except.ok t → rM = Except.error e →
      loadModelAndTokenizer false lT lM rT rM = Except.error e) := by
  refine ⟨rfl, rfl, ?_, ?_, ?_, ?_⟩
  · intro t m h1 h2; subst h1; subst h2; rfl
  · intro t m h1 h2; subst h1; subst h2; rfl
  · intro e h1; subst h1; rfl
  · intro t e h1 h2; subst h1; subst h2; rfl

/-- Witness for C6: a failed remote fetch propagates as the same error. -/
theorem C6_load_branch_witness :
    loadModelAndTokenizer false (Except.ok 1 : Except String Nat)
      (Except.ok 2 : Except String Nat) (Except.error "network down")
      (Except.ok 4 : Except String Nat) = Except.error "network down" :=
  (C6_load_branch (Except.ok 1) (Except.ok 1) (Except.ok 2) (Except.ok 2)
    (Except.error "network down") (Except.error "network down")
    (Except.ok 4) (Except.ok 4)).2.2.2.2.1 "network down" rfl

/-- `target_modules=["q_proj", "k_proj", "v_proj", "o_proj"]` from cell 8. -/
def loraTargetModules : List String := ["q_proj", "k_proj", "v_proj", "o_proj"]

/-- The static adapter configuration of cell 8 (`lora_dropout=0.1` and the
task type play no role in the claims and are omitted). -/
structure LoraConfigData where
  r : Nat
  loraAlpha : Nat
  targetModules : List String
  bias : String

/-- `lora_config = LoraConfig(r=8, lora_alpha=32, target_modules=..., bias="none", ...)`. -/
def lora_config : LoraConfigData := ⟨8, 32, loraTargetModules, "none"⟩

/-- A named parameter of the (peft-wrapped) model: whether it is an injected
low-rank adapter parameter, whether it is trainable, and its value. -/
structure PeftParam where
  name : String
  isAdapter : Bool
  requiresGrad : Bool
  value : Int
deriving DecidableEq

/-- Modelled from the spec: `get_peft_model` (PEFT library code, not part of
this repository's source) freezes every base-model parameter and injects a
pair of trainable low-rank matrices at each configured target module. -/
def get_peft_model (base : List PeftParam) (cfg : LoraConfigData) : List PeftParam :=
  base.map (fun p => { p with requiresGrad := false }) ++
    cfg.targetModules.flatMap (fun m =>
      [⟨m ++ ".lora_A", true, true, 0⟩, ⟨m ++ ".lora_B", true, true, 0⟩])

/-- Modelled from the spec: one optimizer step of the external `Trainer`
updates exactly the parameters whose `requiresGrad` flag is set, and touches
no flags. -/
def trainStep (g : String → Int) (ps : List PeftParam) : List PeftParam :=
  ps.map (fun p => if p.requiresGrad then { p with value := p.value - g p.name } else p)

/-- A whole training run: a fold of `trainStep` over the per-step gradients. -/
def trainRun (gs : List (String → Int)) (ps : List PeftParam) : List PeftParam :=
  gs.foldl (fun acc g => trainStep g acc) ps

/-- A step preserves each parameter's name and both flags. -/
theorem trainStep_mem (g : String → Int) (ps : List PeftParam) (p : PeftParam)
    (h : p ∈ trainStep g ps) :
    ∃ q ∈ ps, q.name = p.name ∧ q.isAdapter = p.isAdapter ∧
      q.requiresGrad = p.requiresGrad := by
  simp only [trainStep, List.mem_map] at h
  obtain ⟨q, hq, hmap⟩ := h
  refine ⟨q, hq, ?_⟩
  subst hmap
  by_cases hg : q.requiresGrad <;> simp [hg]

/-- A run preserves each parameter's name and both flags. -/
theorem trainRun_mem (gs : List (String → Int)) :
    ∀ ps p, p ∈ trainRun gs ps →
      ∃ q ∈ ps, q.name = p.name ∧ q.isAdapter = p.isAdapter ∧
        q.requiresGrad = p.requiresGrad := by
  induction gs with
  | nil => intro ps p h; exact ⟨p, h, rfl, rfl, rfl⟩
  | cons g gs ih =>
    intro ps p h
    obtain ⟨q, hq, hn, hA, hG⟩ := ih (trainStep g ps) p h
    obtain ⟨q2, hq2, hn2, hA2, hG2⟩ := trainStep_mem g ps q hq
    exact ⟨q2, hq2, hn2.trans hn, hA2.trans hA, hG2.trans hG⟩

/-- Right after adapter injection, trainability coincides with being an
adapter parameter (given that the base model has no adapter parameters). -/
theorem peft_init_inv (base : List PeftParam)
    (hbase : ∀ p ∈ base, p.isAdapter = false) :
    ∀ p ∈ get_peft_model base lora_config, p.requiresGrad = p.isAdapter := by
  intro p hp
  simp only [get_peft_model, List.mem_append] at hp
  cases hp with
  | inl h =>
    simp only [List.mem_map] at h
    obtain ⟨q, hq, rfl⟩ := h
    simp [hbase q hq]
  | inr h =>
    simp only [List.mem_flatMap] at h
    obtain ⟨m, hm, hpm⟩ := h
    simp only [List.mem_cons, List.not_mem_nil, or_false] at hpm
    rcases hpm with rfl | rfl <;> rfl

/-- Adapter parameters are exactly the injected low-rank matrices at the
configured target modules. -/
theorem peft_adapter_names (base : List PeftParam)
    (hbase : ∀ p ∈ base, p.isAdapter = false) (q : PeftParam)
    (hq : q ∈ get_peft_model base lora_config) (hqA : q.isAdapter = true) :
    ∃ m ∈ loraTargetModules, q.name = m ++ ".lora_A" ∨ q.name = m ++ ".lora_B" := by
  simp only [get_peft_model, List.mem_append] at hq
  cases hq with
  | inl h =>
    exfalso
    simp only [List.mem_map] at h
    obtain ⟨p, hp, rfl⟩ := h
    exact absurd hqA (by simp [hbase p hp])
  | inr h =>
    simp only [List.mem_flatMap] at h
    obtain ⟨m, hm, hqm⟩ := h
    simp only [List.mem_cons, List.not_mem_nil, or_false] at hqm
    rcases hqm with rfl | rfl
    · exact ⟨m, hm, Or.inl rfl⟩
    · exact ⟨m, hm, Or.inr rfl⟩

/-- A step preserves the trainability invariant. -/
theorem trainStep_inv (g : String → Int) (ps : List PeftParam)
    (hinv : ∀ p ∈ ps, p.requiresGrad = p.isAdapter) :
    ∀ p ∈ trainStep g ps, p.requiresGrad = p.isAdapter := by
  intro p hp
  obtain ⟨q, hq, _, hA, hG⟩ := trainStep_mem g ps p hp
  rw [← hG, ← hA]
  exact hinv q hq

/-- A step leaves the frozen (non-adapter) parameters untouched, values
included. -/
theorem trainStep_filter_frozen (g : String → Int) :
    ∀ ps, (∀ p ∈ ps, p.requiresGrad = p.isAdapter) →
      (trainStep g ps).filter (fun p => !p.isAdapter) =
        ps.filter (fun p => !p.isAdapter) := by
  intro ps
  induction ps with
  | nil => intro _; rfl
  | cons q qs ih =>
    intro hinv
    have hq := hinv q (by simp)
    have hqs := ih (fun p hp => hinv p (by simp [hp]))
    simp only [trainStep, List.map_cons] at hqs ⊢
    cases hqa : q.isAdapter with
    | true =>
      rw [hqa] at hq
      simp [hq, hqa, hqs]
    | false =>
      rw [hqa] at hq
      simp [hq, hqa, hqs]

/-- A whole run leaves the frozen parameters untouched. -/
theorem trainRun_filter_frozen (gs : List (String → Int)) :
    ∀ ps, (∀ p ∈ ps, p.requiresGrad = p.isAdapter) →
      (trainRun gs ps).filter (fun p => !p.isAdapter) =
        ps.filter (fun p => !p.isAdapter) := by
  induction gs with
  | nil => intro ps _; rfl
  | cons g gs ih =>
    intro ps h
    have h2 := ih (trainStep g ps) (trainStep_inv g ps h)
    exact h2.trans (trainStep_filter_frozen g ps h)

/-- Claim C8: throughout any training run starting from the adapter-injected
model, trainability coincides with being an injected adapter parameter; every
trainable parameter is one of the low-rank matrices at `q_proj`, `k_proj`,
`v_proj`, `o_proj`; and the frozen base parameters (values included) are
exactly as they were right after injection — the invariant is preserved by
every training step. -/
theorem C8_lora_frozen_invariant (base : List PeftParam) (gs : List (String → Int))
    (hbase : ∀ p ∈ base, p.isAdapter = false) :
    (∀ p ∈ trainRun gs (get_peft_model base lora_config),
      p.requiresGrad = p.isAdapter) ∧
    (∀ p ∈ trainRun gs (get_peft_model base lora_config), p.requiresGrad = true →
      ∃ m ∈ loraTargetModules, p.name = m ++ ".lora_A" ∨ p.name = m ++ ".lora_B") ∧
    ((trainRun gs (get_peft_model base lora_config)).filter (fun p => !p.isAdapter) =
      (get_peft_model base lora_config).filter (fun p => !p.isAdapter)) := by
  have hinit := peft_init_inv base hbase
  refine ⟨?_, ?_, trainRun_filter_frozen gs _ hinit⟩
  · intro p hp
    obtain ⟨q, hq, _, hA, hG⟩ := trainRun_mem gs _ p hp
    rw [← hG, ← hA]
    exact hinit q hq
  · intro p hp hpG
    obtain ⟨q, hq, hname, hA, hG⟩ := trainRun_mem gs _ p hp
    have hqA : q.isAdapter = true := (hinit q hq).symm.trans (hG.trans hpG)
    obtain ⟨m, hm, hor⟩ := peft_adapter_names base hbase q hq hqA
    rw [hname] at hor
    exact ⟨m, hm, hor⟩

/-- Witness for C8 at a concrete base parameter list and one-step run. -/
theorem C8_lora_frozen_invariant_witness :
    (trainRun [fun _ => 1]
        (get_peft_model [⟨"model.layers.0.self_attn.q_proj.weight", false, true, 3⟩]
          lora_config)).filter (fun p => !p.isAdapter) =
      (get_peft_model [⟨"model.layers.0.self_attn.q_proj.weight", false, true, 3⟩]
        lora_config).filter (fun p => !p.isAdapter) :=
  (C8_lora_frozen_invariant [⟨"model.layers.0.self_attn.q_proj.weight", false, true, 3⟩]
    [fun _ => 1] (by decide)).2.2
